import Mathlib

/-!
Shallow embedding of the variant-interpretation core of the ADTKD/vntyper
repository (files `vntyper/scripts/kestrel_genotyping.py` and
`vntyper/scripts/motif_processing.py`), together with proofs settling the
frozen claims about its specification.

Python strings are modelled as `List Char` (accessed through `String.data`);
pandas columns become record fields; whole-table pandas operations become
list transformations; Python exceptions (`astype` failures, shape-mismatch
errors on column assignment) become `Except`/`Option` results; numpy float
division (which yields `inf`/`nan` instead of raising on a zero denominator)
is modelled by the `DScore` type; exact decimal arithmetic stands in for
IEEE floats (all numerators/denominators involved are far below the range
where `round(x, 2)`/`str` would deviate from exact decimal behaviour).
-/

namespace VNTyper

/-- Prefix test on char lists (used to model Python substring search). -/
def isPrefixL : List Char → List Char → Bool
  | [], _ => true
  | _ :: _, [] => false
  | x :: xs, y :: ys => x == y && isPrefixL xs ys

/-- Models Python's substring containment `needle in hay` for `str`. -/
def containsSub (needle : List Char) : List Char → Bool
  | [] => needle.isEmpty
  | c :: t => isPrefixL needle (c :: t) || containsSub needle t

/-- Fueled worker for `replaceAll` (the fuel is an upper bound on the scan
length, so the `0` arm is never reached when the fuel starts at the string
length; structural recursion keeps the definition kernel-computable). -/
def replaceAllGo (o : Char) (os newL : List Char) : Nat → List Char → List Char
  | _, [] => []
  | 0, l => l
  | f + 1, c :: t =>
    if isPrefixL (o :: os) (c :: t) then
      newL ++ replaceAllGo o os newL f (t.drop os.length)
    else
      c :: replaceAllGo o os newL f t

/-- Models Python's `str.replace(old, new)` (all non-overlapping occurrences,
scanning left to right); the pattern is passed as head `o` and tail `os`
so that it is provably nonempty. -/
def replaceAll (o : Char) (os newL : List Char) (l : List Char) : List Char :=
  replaceAllGo o os newL l.length l

/-- Split at the first occurrence of `sep`: models the two columns produced by
pandas `str.split(sep, expand=True)` on a column whose values contain at most
one separator; the second component is `none` when `sep` is absent
(pandas pads the missing part with `None`). -/
def splitFirstOpt (sep : Char) : List Char → List Char × Option (List Char)
  | [] => ([], none)
  | c :: t =>
    if c == sep then ([], some t)
    else
      let p := splitFirstOpt sep t
      (c :: p.1, p.2)

/-- Full split on a separator, models Python's `str.split(sep)`. -/
def splitAll (sep : Char) : List Char → List (List Char)
  | [] => [[]]
  | c :: t =>
    if c == sep then [] :: splitAll sep t
    else
      match splitAll sep t with
      | [] => [[c]]
      | p :: ps => (c :: p) :: ps

/-- Decimal digit character. -/
def digitChar (n : Nat) : Char :=
  if n = 0 then '0' else if n = 1 then '1' else if n = 2 then '2'
  else if n = 3 then '3' else if n = 4 then '4' else if n = 5 then '5'
  else if n = 6 then '6' else if n = 7 then '7' else if n = 8 then '8'
  else '9'

/-- Fueled decimal formatting worker. -/
def natDigitsGo : Nat → Nat → List Char → List Char
  | 0, n, acc => digitChar (n % 10) :: acc
  | f + 1, n, acc =>
    if n < 10 then digitChar n :: acc
    else natDigitsGo f (n / 10) (digitChar (n % 10) :: acc)

/-- Decimal representation of a natural number, models Python's `str(n)`. -/
def natDigits (n : Nat) : List Char := natDigitsGo n n []

/-- Two-decimal fractional digits produced by `round(delta/3, 2)` according to
the residue of `|delta|` modulo 3 (`0.00`, `0.33` or `0.67`); Python's `str`
prints a whole-number float with a single `0` after the point. -/
def fracDigits (r : Nat) : List Char :=
  if r = 0 then ['0'] else if r = 1 then ['3', '3'] else ['6', '7']

/-- Models the composite `str(round((alt_len - ref_len) / 3, 2))` from
`split_depth_and_calculate_frame_score`: sign, integer part, decimal point,
fractional digits. -/
def frameScoreStr (delta : Int) : List Char :=
  (if delta < 0 then ['-'] else []) ++
    natDigits (delta.natAbs / 3) ++ '.' :: fracDigits (delta.natAbs % 3)

/-- The stored `Frame_Score` column value: the formatted score after
`.replace('.0', 'C')`. -/
def frameScoreRepl (delta : Int) : List Char :=
  replaceAll '.' ['0'] ['C'] (frameScoreStr delta)

/-- Models `pandas.Series.replace(old, new)` with scalar arguments: only cells
exactly equal to `old` are replaced. -/
def pandasReplaceExact (old newL l : List Char) : List Char :=
  if l == old then newL else l

/-- Accumulating decimal parser worker. -/
def parseNatGo : Nat → List Char → Option Nat
  | acc, [] => some acc
  | acc, c :: t =>
    if c.isDigit then parseNatGo (acc * 10 + (c.toNat - '0'.toNat)) t
    else none

/-- Parse a nonempty all-digit string. -/
def parseNatDigits : List Char → Option Nat
  | [] => none
  | l => parseNatGo 0 l

/-- Models Python's `int(s)` on a decimal literal with an optional sign
(whitespace tolerance is irrelevant for the colon-separated depth fields). -/
def parseDec : List Char → Option Int
  | '-' :: t => (parseNatDigits t).map (fun n => -(n : Int))
  | '+' :: t => (parseNatDigits t).map (fun n => (n : Int))
  | t => (parseNatDigits t).map (fun n => (n : Int))

/-- Regex word character (`\w`). -/
def isWordChar (c : Char) : Bool := c.isAlphanum || c == '_'

/-- Does `w` occur at the head of `s` with a word boundary after it? -/
def wordHitAt (w s : List Char) : Bool :=
  isPrefixL w s &&
    (match s.drop w.length with
     | [] => true
     | c :: _ => !isWordChar c)

/-- Scanning worker for word-bounded search; `prev` is the character before
the current position (`none` at the start of the string). -/
def containsWordGo (w : List Char) (prev : Option Char) : List Char → Bool
  | [] => false
  | c :: t =>
    ((match prev with
      | none => true
      | some p => !isWordChar p) && wordHitAt w (c :: t)) ||
      containsWordGo w (some c) t

/-- Models `re.search(r'\b' + w + r'\b', s)` for a pattern `w` made of word
characters (the configured `alt_for_motif_right_gg`, default `"GG"`). -/
def containsWordW (w s : List Char) : Bool := containsWordGo w none s

/-- Left join lookup on a two-column motif catalog (`Motif` → sequence);
models a pandas `merge(..., how='left')` under the spec's invariant that
catalog ids are unique. -/
def lookupSeq (m : List (String × String)) (k : String) : Option String :=
  (m.find? (fun p => p.1 == k)).map (fun p => p.2)

/-! ## Kestrel genotyping pipeline (`kestrel_genotyping.py`)

Row records carry the pandas columns that survive the column selection in
`split_depth_and_calculate_frame_score`.  `POS` stays textual: none of the
embedded kestrel stages converts it. -/

/-- A row of the combined insertion/deletion candidate table handed to
`process_kmer_results` (columns `Motifs, POS, REF, ALT, Sample,
Motif_sequence, Variant` after preprocessing). -/
structure RawRow where
  Motifs : String
  Variant : String
  POS : String
  REF : String
  ALT : String
  Motif_sequence : Option String
  Sample : String
deriving DecidableEq, Repr

/-- A row after `split_depth_and_calculate_frame_score`: the `Sample` column
split into the depth triple (the leading `Del` subfield is dropped by the
column selection), plus the stored `Frame_Score` string. -/
structure KRow where
  Motifs : String
  Variant : String
  POS : String
  REF : String
  ALT : String
  Motif_sequence : Option String
  Estimated_Depth_AlternateVariant : Option String
  Estimated_Depth_Variant_ActiveRegion : Option String
  Frame_Score : String
deriving DecidableEq, Repr

/-- A row after `split_frame_score`: `Frame_Score` split at the decimal point
into `left`/`right`, with `'-0'` cells of `left` replaced by `'-1'`. -/
structure K2Row extends KRow where
  left : String
  right : String
deriving DecidableEq, Repr

/-- Allele-length delta `len(ALT) - len(REF)` of a raw row. -/
def deltaOf (r : RawRow) : Int := (r.ALT.length : Int) - (r.REF.length : Int)

/-- Per-row part of `split_depth_and_calculate_frame_score`: split the
`Sample` field on `:` (columns 2 and 3 become the depth fields, missing parts
are padded with `None` by pandas) and store the formatted, `.0 → C` replaced
frame score. -/
def krowOf (r : RawRow) : KRow :=
  let parts := splitAll ':' r.Sample.data
  { Motifs := r.Motifs
    Variant := r.Variant
    POS := r.POS
    REF := r.REF
    ALT := r.ALT
    Motif_sequence := r.Motif_sequence
    Estimated_Depth_AlternateVariant := (parts[1]?).map (fun l => String.mk l)
    Estimated_Depth_Variant_ActiveRegion := (parts[2]?).map (fun l => String.mk l)
    Frame_Score := String.mk (frameScoreRepl (deltaOf r)) }

/-- Maximum number of colon-separated parts of the `Sample` column over the
batch: the number of columns produced by `str.split(':', expand=True)`. -/
def maxParts (rows : List RawRow) : Nat :=
  rows.foldl (fun m r => max m (splitAll ':' r.Sample.data).length) 0

/-- `split_depth_and_calculate_frame_score`: the three-column assignment
`df[['Del', ..., ...]] = df['Depth'].str.split(':', expand=True)` raises a
`ValueError` unless the split produces exactly three columns (it produces
`maxParts` of them, and none on an empty frame); afterwards rows whose
two-decimal frame score has fractional part `00` (marked `C`) are dropped. -/
def split_depth_and_calculate_frame_score (rows : List RawRow) :
    Except String (List KRow) :=
  if rows ≠ [] ∧ maxParts rows = 3 then
    .ok ((rows.map krowOf).filter
      (fun k => !containsSub ['C'] k.Frame_Score.data))
  else
    .error "Columns must be same length as key"

/-- Per-row part of `split_frame_score`. -/
def toK2Row (k : KRow) : K2Row :=
  let p := splitFirstOpt '.' k.Frame_Score.data
  { toKRow := k
    left := String.mk (pandasReplaceExact ['-', '0'] ['-', '1'] p.1)
    right := String.mk (p.2.getD []) }

/-- `split_frame_score`: split `Frame_Score` into `left`/`right` and replace
`'-0'` with `'-1'` in `left`. -/
def split_frame_score (l : List KRow) : List K2Row := l.map toK2Row

/-- `extract_frameshifts`: keep rows with dash-free `left` and `'33'` in
`right` (insertion class) or a dash in `left` and `'67'` in `right`
(deletion class), concatenating the insertion rows before the deletion
rows. -/
def extract_frameshifts (l : List K2Row) : List K2Row :=
  l.filter (fun k => !containsSub ['-'] k.left.data &&
      containsSub ['3', '3'] k.right.data) ++
    l.filter (fun k => containsSub ['-'] k.left.data &&
      containsSub ['6', '7'] k.right.data)

/-- Composition of the per-row maps of the first two classifier stages. -/
def k2rowOf (r : RawRow) : K2Row := toK2Row (krowOf r)

/-- Value of the `Depth_Score` column: numpy float division, which yields
`inf`/`-inf`/`nan` instead of raising when the denominator is zero. -/
inductive DScore where
  | fin (q : ℚ)
  | posInf
  | negInf
  | nan
deriving DecidableEq, Repr

/-- `depth_score <= c` as evaluated on floats (`nan` compares false). -/
def dsLe (d : DScore) (c : ℚ) : Bool :=
  match d with
  | .fin q => decide (q ≤ c)
  | .posInf => false
  | .negInf => true
  | .nan => false

/-- `c <= depth_score` as evaluated on floats (`nan` compares false). -/
def dsGe (d : DScore) (c : ℚ) : Bool :=
  match d with
  | .fin q => decide (c ≤ q)
  | .posInf => true
  | .negInf => false
  | .nan => false

/-- The pandas column division `alt_depth / active_region_depth`. -/
def divScore (a v : Int) : DScore :=
  if v = 0 then
    if 0 < a then .posInf else if a < 0 then .negInf else .nan
  else
    .fin ((a : ℚ) / (v : ℚ))

/-- The `assign_confidence` closure of
`calculate_depth_score_and_assign_confidence`, line for line. -/
def assign_confidence (depth_score : DScore) (alt_depth var_active_region : Int) :
    String :=
  if dsLe depth_score (0.00469 : ℚ) ∨ var_active_region ≤ 200 then
    "Low_Precision"
  else if (21 ≤ alt_depth ∧ alt_depth ≤ 100) ∧
      (dsGe depth_score (0.00469 : ℚ) ∧ dsLe depth_score (0.00515 : ℚ)) then
    "Low_Precision"
  else if 100 < alt_depth then
    "High_Precision"
  else if alt_depth ≤ 20 then
    "Low_Precision"
  else if (21 ≤ alt_depth ∧ alt_depth < 100) ∧ dsGe depth_score (0.00515 : ℚ) then
    "High_Precision"
  else if 100 ≤ alt_depth ∧ dsGe depth_score (0.00515 : ℚ) then
    "High_Precision*"
  else
    "Low_Precision"

/-- A confidence-scored row (depth columns converted by `astype(int)`). -/
structure CRow where
  Motifs : String
  Variant : String
  POS : String
  REF : String
  ALT : String
  Motif_sequence : Option String
  Estimated_Depth_AlternateVariant : Int
  Estimated_Depth_Variant_ActiveRegion : Int
  Depth_Score : DScore
  Confidence : String
deriving DecidableEq, Repr

/-- Per-row depth conversion and scoring; `astype(int)` raises on a missing
or non-integer depth field, which aborts the whole batch. -/
def toCRow (k : K2Row) : Except String CRow :=
  match k.Estimated_Depth_AlternateVariant.bind (fun s => parseDec s.data),
      k.Estimated_Depth_Variant_ActiveRegion.bind (fun s => parseDec s.data) with
  | some a, some v =>
    .ok { Motifs := k.Motifs
          Variant := k.Variant
          POS := k.POS
          REF := k.REF
          ALT := k.ALT
          Motif_sequence := k.Motif_sequence
          Estimated_Depth_AlternateVariant := a
          Estimated_Depth_Variant_ActiveRegion := v
          Depth_Score := divScore a v
          Confidence := assign_confidence (divScore a v) a v }
  | _, _ => .error "invalid literal for int() with base 10"

/-- Monadic map over `Except`, stopping at the first error (the behaviour of
`astype(int)` over a column). -/
def mapME (f : α → Except String β) : List α → Except String (List β)
  | [] => .ok []
  | a :: t =>
    match f a with
    | .error e => .error e
    | .ok b =>
      match mapME f t with
      | .error e => .error e
      | .ok bs => .ok (b :: bs)

/-- `calculate_depth_score_and_assign_confidence` at batch level. -/
def calculate_depth_score_and_assign_confidence (l : List K2Row) :
    Except String (List CRow) :=
  mapME toCRow l

/-- `filter_by_alt_values_and_finalize`: if any `ALT` matches `\bGG\b`, keep
non-`GG` rows plus `GG` rows with `Depth_Score >= 0.00469`; then drop
`CG`/`TG` alternate alleles; then (after dropping the `left`/`right` helper
columns, which the row type no longer carries) keep only rows whose
`Confidence` differs from `Low_Precision`. -/
def filter_by_alt_values_and_finalize (l : List CRow) : List CRow :=
  let l1 :=
    if l.any (fun r => containsWordW ['G', 'G'] r.ALT.data) then
      l.filter (fun r => !(r.ALT == "GG")) ++
        l.filter (fun r => r.ALT == "GG" && dsGe r.Depth_Score (0.00469 : ℚ))
    else l
  let l2 := l1.filter (fun r => !(r.ALT == "CG") && !(r.ALT == "TG"))
  l2.filter (fun r => !(r.Confidence == "Low_Precision"))

/-- `process_kmer_results`: the five stages in order, propagating the Python
exceptions of stages 1 and 4. -/
def process_kmer_results (rows : List RawRow) : Except String (List CRow) :=
  match split_depth_and_calculate_frame_score rows with
  | .error e => .error e
  | .ok ks =>
    match calculate_depth_score_and_assign_confidence
        (extract_frameshifts (split_frame_score ks)) with
    | .error e => .error e
    | .ok cs => .ok (filter_by_alt_values_and_finalize cs)

/-- Error discriminator for `Except`. -/
def isErr : Except String α → Bool
  | .error _ => true
  | .ok _ => false

/-- Modelled from the spec: the ordered confidence decision table of §4.4,
first matching rule wins, with `depth_score = alt_depth /
active_region_depth` in exact arithmetic (a zero denominator never reaches a
depth-score comparison: rule 1's `active_region_depth ≤ 200` already fires).
This is the comparison target for the refinement claim about
`assign_confidence`; the executable source translation is above. -/
def specConfidenceTable (alt_depth var_active_region : Int) : String :=
  if (alt_depth : ℚ) / (var_active_region : ℚ) ≤ 0.00469 ∨
      var_active_region ≤ 200 then "Low_Precision"
  else if (21 ≤ alt_depth ∧ alt_depth ≤ 100) ∧
      (0.00469 ≤ (alt_depth : ℚ) / (var_active_region : ℚ) ∧
        (alt_depth : ℚ) / (var_active_region : ℚ) ≤ 0.00515) then "Low_Precision"
  else if 100 < alt_depth then "High_Precision"
  else if alt_depth ≤ 20 then "Low_Precision"
  else if (21 ≤ alt_depth ∧ alt_depth < 100) ∧
      (0.00515 : ℚ) ≤ (alt_depth : ℚ) / (var_active_region : ℚ) then
    "High_Precision"
  else if 100 ≤ alt_depth ∧
      (0.00515 : ℚ) ≤ (alt_depth : ℚ) / (var_active_region : ℚ) then
    "High_Precision*"
  else "Low_Precision"

/-! ## Motif resolver (`motif_processing.py`, `motif_correction_and_annotation`)

The resolver's input table has integer positions (the function begins with
`df['POS'].astype(int)`) and finite depth scores (read back from the written
result table). -/

/-- A row of the confidence-scored table entering the motif resolver. -/
structure MRow where
  Motifs : String
  Variant : String
  POS : Int
  REF : String
  ALT : String
  Motif_sequence : Option String
  Estimated_Depth_AlternateVariant : Int
  Estimated_Depth_Variant_ActiveRegion : Int
  Depth_Score : ℚ
  Confidence : String
deriving DecidableEq, Repr

/-- A resolver row after splitting `Motifs` on `-` (a dashless id leaves the
right part `None`, as pandas pads the missing expand column). -/
structure MRow2 extends MRow where
  Motif_left : String
  Motif_right : Option String
deriving DecidableEq, Repr

/-- An annotated row after the side-specific merge and column selection
(`Motif` is `None` for a left-half row whose id had no dash). -/
structure ARow where
  Motif : Option String
  Motif_fasta : String
  Variant : String
  POS : Int
  REF : String
  ALT : String
  Motif_sequence : Option String
  Estimated_Depth_AlternateVariant : Int
  Estimated_Depth_Variant_ActiveRegion : Int
  Depth_Score : ℚ
  Confidence : String
deriving DecidableEq, Repr

/-- A final resolver row after position re-basing. -/
structure FRow extends ARow where
  POS_fasta : Int
deriving DecidableEq, Repr

/-- The `motif_filtering` configuration block. -/
structure MotifConfig where
  position_threshold : Int
  exclude_motifs_right : List String
  alt_for_motif_right_gg : String
  motifs_for_alt_gg : List String
  exclude_alts_combined : List String
  exclude_motifs_combined : List String
deriving Repr

/-- `df['Motifs'].str.count('-').max()` over the batch. -/
def dashMax (rows : List MRow) : Nat :=
  rows.foldl (fun m r => max m (r.Motifs.data.count '-')) 0

/-- Per-row part of the `Motifs` split (step 1 of the resolver). -/
def toMRow2 (r : MRow) : MRow2 :=
  let p := splitFirstOpt '-' r.Motifs.data
  { toMRow := r
    Motif_left := String.mk p.1
    Motif_right := p.2.map (fun l => String.mk l) }

/-- `Series.isin` on the optional `Motif` column (a null key is in no list). -/
def optIsin (m : Option String) (l : List String) : Bool :=
  match m with
  | some s => l.contains s
  | none => false

/-- Insert for the insertion sort modelling `sort_values`. -/
def insertBy (le : α → α → Bool) (a : α) : List α → List α
  | [] => [a]
  | b :: t => if le a b then a :: b :: t else b :: insertBy le a t

/-- Insertion sort modelling `sort_values` (stable; `sort_values` ties are
unspecified, and no claim depends on tie order). -/
def sortBy (le : α → α → Bool) : List α → List α
  | [] => []
  | a :: t => insertBy le a (sortBy le t)

/-- Keep-first key deduplication worker, models
`drop_duplicates(key, keep='first')`. -/
def dedupByAux [BEq β] (key : α → β) (seen : List β) : List α → List α
  | [] => []
  | a :: t =>
    if seen.contains (key a) then dedupByAux key seen t
    else a :: dedupByAux key (key a :: seen) t

/-- `drop_duplicates` on a key, keeping the first occurrence. -/
def dedupBy [BEq β] (key : α → β) (l : List α) : List α := dedupByAux key [] l

/-- Descending order on `(Depth_Score, POS)` for the left-half
`sort_values(["Depth_Score", "POS"], ascending=[False, False])`. -/
def leDepthPos (a b : ARow) : Bool :=
  decide (b.Depth_Score < a.Depth_Score) ||
    (a.Depth_Score == b.Depth_Score && decide (b.POS ≤ a.POS))

/-- Descending order on `Depth_Score` for
`sort_values('Depth_Score', ascending=False)`. -/
def leDepth (a b : ARow) : Bool :=
  decide (b.Depth_Score < a.Depth_Score) || a.Depth_Score == b.Depth_Score

/-- Left-half row: the right motif id becomes the effective `Motif`, and the
annotation catalog replaces `Motif_sequence`. -/
def toLeftARow (merged : List (String × String)) (x : MRow2) : ARow :=
  { Motif := x.Motif_right
    Motif_fasta := x.Motifs
    Variant := x.Variant
    POS := x.POS
    REF := x.REF
    ALT := x.ALT
    Motif_sequence := x.Motif_right.bind (lookupSeq merged)
    Estimated_Depth_AlternateVariant := x.Estimated_Depth_AlternateVariant
    Estimated_Depth_Variant_ActiveRegion := x.Estimated_Depth_Variant_ActiveRegion
    Depth_Score := x.Depth_Score
    Confidence := x.Confidence }

/-- Right-half row: the left motif id becomes the effective `Motif`. -/
def toRightARow (merged : List (String × String)) (x : MRow2) : ARow :=
  { Motif := some x.Motif_left
    Motif_fasta := x.Motifs
    Variant := x.Variant
    POS := x.POS
    REF := x.REF
    ALT := x.ALT
    Motif_sequence := lookupSeq merged x.Motif_left
    Estimated_Depth_AlternateVariant := x.Estimated_Depth_AlternateVariant
    Estimated_Depth_Variant_ActiveRegion := x.Estimated_Depth_Variant_ActiveRegion
    Depth_Score := x.Depth_Score
    Confidence := x.Confidence }

/-- Step 3/4 for the left half: merge, column selection, sort by
`(Depth_Score, POS)` descending, then `drop_duplicates('ALT', keep='first')`
(executed only on a nonempty sub-frame). -/
def processMotifLeft (merged : List (String × String)) (l : List MRow2) :
    List ARow :=
  if l = [] then []
  else dedupBy (fun r => r.ALT) (sortBy leDepthPos (l.map (toLeftARow merged)))

/-- Step 4/5 for the right half: merge and selection, the special `GG`
branch (exclusion list, restriction to the sentinel `ALT`, sort + dedup on
`ALT`, optional allow-list restriction) or the plain sort + dedup branch,
then `drop_duplicates(['REF', 'ALT'])`. -/
def processMotifRight (cfg : MotifConfig) (merged : List (String × String))
    (l : List MRow2) : List ARow :=
  if l = [] then []
  else
    let a := l.map (toRightARow merged)
    let f :=
      if a.any (fun x => containsWordW cfg.alt_for_motif_right_gg.data x.ALT.data) then
        let c := a.filter (fun x => !optIsin x.Motif cfg.exclude_motifs_right)
        let d := c.filter (fun x => x.ALT == cfg.alt_for_motif_right_gg)
        let e := dedupBy (fun r => r.ALT) (sortBy leDepth d)
        if e.any (fun x => optIsin x.Motif cfg.motifs_for_alt_gg) then
          e.filter (fun x => optIsin x.Motif cfg.motifs_for_alt_gg)
        else e
      else dedupBy (fun r => r.ALT) (sortBy leDepth a)
    dedupBy (fun r => (r.REF, r.ALT)) f

/-- Step 7 per row: `POS_fasta` preserves the current position, then the mask
subtracts the threshold from positions at or above it. -/
def rebaseRow (thr : Int) (r : ARow) : FRow :=
  { toARow := { r with POS := if thr ≤ r.POS then r.POS - thr else r.POS }
    POS_fasta := r.POS }

/-- The same re-basing step applied to a table that already carries a
`POS_fasta` column (the assignment overwrites it with the current `POS`). -/
def rebaseAgain (thr : Int) (f : FRow) : FRow :=
  { toARow := { f.toARow with POS := if thr ≤ f.POS then f.POS - thr else f.POS }
    POS_fasta := f.POS }

/-- `motif_correction_and_annotation` (the trailing noun of the source name
is spelled out in this doc comment; the Lean identifier shortens it): empty
input short-circuits; a batch whose maximum dash count differs from 1 is
rejected by returning an empty frame (with a logged error, no exception);
otherwise split, side assignment by `position_threshold`, the two half-group
pipelines, combination (right half first), the combined exclusion lists, and
position re-basing. -/
def motif_correction_annotate (cfg : MotifConfig)
    (merged : List (String × String)) (rows : List MRow) : List FRow :=
  if rows = [] then []
  else if dashMax rows = 1 then
    let rows2 := rows.map toMRow2
    let lhs := processMotifLeft merged
      (rows2.filter (fun x => decide (x.POS < cfg.position_threshold)))
    let rhs := processMotifRight cfg merged
      (rows2.filter (fun x => decide (cfg.position_threshold ≤ x.POS)))
    let comb :=
      ((rhs ++ lhs).filter
        (fun x => !cfg.exclude_alts_combined.contains x.ALT)).filter
        (fun x => !optIsin x.Motif cfg.exclude_motifs_combined)
    comb.map (rebaseRow cfg.position_threshold)
  else []

/-! ## Variant record normalizer (`preprocessing_insertion`)

The normalizer operates on a generic tabular frame; `inplace=True` renames
and drops act on the caller's object, so the embedding passes the state of
the caller-visible frame back explicitly alongside the function's return
value (rebinding `df = pd.merge(...)` does not affect the caller). -/

/-- A pandas DataFrame with string cells (the merged motif sequence cell of
an unmatched id is rendered `nan`, as in the written table). -/
structure PyDF where
  header : List String
  rows : List (List String)
deriving DecidableEq, Repr

/-- `df.rename(columns={old: new})`: renames every column named `old`
(a missing `old` is silently ignored). -/
def renameCol (old newName : String) (df : PyDF) : PyDF :=
  { df with header := df.header.map (fun h => if h == old then newName else h) }

/-- `df.drop(names, axis=1)`: raises `KeyError` when a label is absent. -/
def dropCols (names : List String) (df : PyDF) : Option PyDF :=
  if names.all (fun n => df.header.contains n) then
    some { header := df.header.filter (fun h => !names.contains h)
           rows := df.rows.map (fun row =>
             ((df.header.zip row).filter
               (fun p => !names.contains p.1)).map (fun p => p.2)) }
  else none

/-- `df.rename(columns={df.columns[-1]: 'Sample'})`: raises on an empty
column index. -/
def renameLastToSample (df : PyDF) : Option PyDF :=
  match df.header.getLast? with
  | none => none
  | some last => some (renameCol last "Sample" df)

/-- `pd.merge(df, muc1_ref, on='Motifs', how='left')` under the spec's
unique-id invariant for the catalog; an unmatched id yields a `nan` cell. -/
def mergeMotifs (df : PyDF) (ref : List (String × String)) : Option PyDF :=
  match df.header.findIdx? (fun h => h == "Motifs") with
  | none => none
  | some i =>
    some { header := df.header ++ ["Motif_sequence"]
           rows := df.rows.map (fun row =>
             row ++ [((row[i]?).bind (lookupSeq ref)).getD "nan"]) }

/-- `df['Variant'] = tag`. -/
def addVariantCol (tag : String) (df : PyDF) : PyDF :=
  { header := df.header ++ ["Variant"], rows := df.rows.map (fun r => r ++ [tag]) }

/-- `preprocessing_insertion` (`preprocessing_deletion` is identical up to
the tag): returns the function's result together with the final state of the
caller's frame, which the `inplace=True` rename/drop/rename prefix has
mutated before the merge rebinds the local name. -/
def preprocessing_insertion (df : PyDF) (ref : List (String × String)) :
    Option PyDF × PyDF :=
  let d1 := renameCol "#CHROM" "Motifs" df
  match dropCols ["ID", "QUAL", "FILTER", "INFO", "FORMAT"] d1 with
  | none => (none, d1)
  | some d2 =>
    match renameLastToSample d2 with
    | none => (none, d2)
    | some d3 =>
      match mergeMotifs d3 ref with
      | none => (none, d3)
      | some d4 => (some (addVariantCol "Insertion" d4), d3)

/-! ## Lemmas about the string machinery -/

theorem digitChar_isDigit (n : Nat) : (digitChar n).isDigit = true := by
  unfold digitChar
  split_ifs <;> decide

theorem mem_natDigitsGo (f n : Nat) (acc : List Char) (c : Char)
    (h : c ∈ natDigitsGo f n acc) : c.isDigit = true ∨ c ∈ acc := by
  induction f generalizing n acc with
  | zero =>
    simp only [natDigitsGo, List.mem_cons] at h
    rcases h with h | h
    · exact Or.inl (h ▸ digitChar_isDigit _)
    · exact Or.inr h
  | succ f ih =>
    simp only [natDigitsGo] at h
    split at h
    · rcases List.mem_cons.mp h with h | h
      · exact Or.inl (h ▸ digitChar_isDigit _)
      · exact Or.inr h
    · rcases ih _ _ h with h | h
      · exact Or.inl h
      · rcases List.mem_cons.mp h with h | h
        · exact Or.inl (h ▸ digitChar_isDigit _)
        · exact Or.inr h

theorem mem_natDigits_isDigit (n : Nat) (c : Char) (h : c ∈ natDigits n) :
    c.isDigit = true := by
  rcases mem_natDigitsGo n n [] c h with h | h
  · exact h
  · simp at h

theorem containsSub_single_of_mem (x : Char) (l : List Char) (h : x ∈ l) :
    containsSub [x] l = true := by
  induction l with
  | nil => simp at h
  | cons c t ih =>
    rcases List.mem_cons.mp h with h | h
    · subst h
      simp [containsSub, isPrefixL]
    · simp [containsSub, isPrefixL, ih h]

theorem containsSub_single_of_not_mem (x : Char) (l : List Char) (h : x ∉ l) :
    containsSub [x] l = false := by
  induction l with
  | nil => simp [containsSub]
  | cons c t ih =>
    simp only [List.mem_cons, not_or] at h
    simp [containsSub, isPrefixL, ih h.2, h.1, beq_eq_false_iff_ne]

theorem containsSub_pair_of_not_mem (o b : Char) (l : List Char) (h : o ∉ l) :
    containsSub [o, b] l = false := by
  induction l with
  | nil => simp [containsSub]
  | cons c t ih =>
    simp only [List.mem_cons, not_or] at h
    simp [containsSub, isPrefixL, ih h.2, h.1, beq_eq_false_iff_ne]

theorem containsSub_dot0_false (u : List Char) (d : Char) (rest : List Char)
    (hu : ∀ c ∈ u, c ≠ '.') (hd0 : d ≠ '0') (hd : d ≠ '.')
    (hrest : ∀ c ∈ rest, c ≠ '.') :
    containsSub ['.', '0'] (u ++ '.' :: d :: rest) = false := by
  induction u with
  | nil =>
    have htail2 : containsSub ['.', '0'] rest = false :=
      containsSub_pair_of_not_mem _ _ _ (fun hm => hrest _ hm rfl)
    have h1 : ('0' : Char) ≠ d := Ne.symm hd0
    have h2 : ('.' : Char) ≠ d := Ne.symm hd
    simp [containsSub, isPrefixL, htail2, h1, h2, beq_eq_false_iff_ne]
  | cons c t ih =>
    have hc : c ≠ '.' := hu c (List.mem_cons_self c t)
    have ht : ∀ x ∈ t, x ≠ '.' := fun x hx => hu x (List.mem_cons_of_mem c hx)
    simp [containsSub, isPrefixL, ih ht, Ne.symm hc, beq_eq_false_iff_ne]

theorem replaceAllGo_of_not_containsSub (o : Char) (os newL : List Char)
    (l : List Char) (h : containsSub (o :: os) l = false) (f : Nat) :
    replaceAllGo o os newL f l = l := by
  induction l generalizing f with
  | nil => cases f <;> simp [replaceAllGo]
  | cons c t ih =>
    simp only [containsSub, Bool.or_eq_false_iff] at h
    cases f with
    | zero => simp [replaceAllGo]
    | succ f =>
      rw [replaceAllGo, if_neg (by simp [h.1]), ih h.2]

theorem replaceAll_of_not_containsSub (o : Char) (os newL l : List Char)
    (h : containsSub (o :: os) l = false) : replaceAll o os newL l = l :=
  replaceAllGo_of_not_containsSub o os newL l h l.length

theorem replaceAllGo_dot0_end (u : List Char) (f : Nat)
    (hu : ∀ c ∈ u, c ≠ '.') (hf : u.length + 1 ≤ f) :
    replaceAllGo '.' ['0'] ['C'] f (u ++ ['.', '0']) = u ++ ['C'] := by
  induction u generalizing f with
  | nil =>
    match f, hf with
    | f + 1, _ =>
      rw [List.nil_append, replaceAllGo, if_pos (by decide)]
      simp [replaceAllGo]
  | cons c t ih =>
    have hc : c ≠ '.' := hu c (List.mem_cons_self c t)
    have ht : ∀ x ∈ t, x ≠ '.' := fun x hx => hu x (List.mem_cons_of_mem c hx)
    match f, hf with
    | f + 1, hf =>
      rw [List.cons_append, replaceAllGo,
        if_neg (by simp [isPrefixL, beq_eq_false_iff_ne, Ne.symm hc]),
        ih f ht (by simpa using Nat.lt_succ_iff.mp hf)]
      simp

theorem replaceAll_dot0_end (u : List Char) (hu : ∀ c ∈ u, c ≠ '.') :
    replaceAll '.' ['0'] ['C'] (u ++ ['.', '0']) = u ++ ['C'] := by
  unfold replaceAll
  exact replaceAllGo_dot0_end u _ hu (by simp)

theorem splitFirstOpt_append (sep : Char) (u v : List Char)
    (hu : ∀ c ∈ u, c ≠ sep) :
    splitFirstOpt sep (u ++ sep :: v) = (u, some v) := by
  induction u with
  | nil => simp [splitFirstOpt]
  | cons c t ih =>
    have hc : c ≠ sep := hu c (List.mem_cons_self c t)
    have ht : ∀ x ∈ t, x ≠ sep := fun x hx => hu x (List.mem_cons_of_mem c hx)
    simp [splitFirstOpt, hc, ih ht, beq_eq_false_iff_ne]

/-! ## Characterization of the frame-score string pipeline -/

/-- The sign and integer-part characters of a formatted frame score. -/
def signDigits (delta : Int) : List Char :=
  (if delta < 0 then ['-'] else []) ++ natDigits (delta.natAbs / 3)

theorem frameScoreStr_eq (delta : Int) :
    frameScoreStr delta =
      signDigits delta ++ '.' :: fracDigits (delta.natAbs % 3) := by
  simp [frameScoreStr, signDigits]

theorem mem_signDigits (delta : Int) (c : Char) (h : c ∈ signDigits delta) :
    c = '-' ∨ c.isDigit = true := by
  unfold signDigits at h
  rcases List.mem_append.mp h with h | h
  · split at h
    · simp at h
      exact Or.inl h
    · simp at h
  · exact Or.inr (mem_natDigits_isDigit _ _ h)

theorem isDigit_ne (c : Char) (h : c.isDigit = true) :
    c ≠ '.' ∧ c ≠ '-' ∧ c ≠ 'C' := by
  refine ⟨?_, ?_, ?_⟩ <;> rintro rfl <;> exact absurd h (by decide)

theorem signDigits_no_dot (delta : Int) : ∀ c ∈ signDigits delta, c ≠ '.' := by
  intro c hc
  rcases mem_signDigits delta c hc with h | h
  · subst h; decide
  · exact (isDigit_ne c h).1

theorem signDigits_no_C (delta : Int) : ∀ c ∈ signDigits delta, c ≠ 'C' := by
  intro c hc
  rcases mem_signDigits delta c hc with h | h
  · subst h; decide
  · exact (isDigit_ne c h).2.2

theorem natAbs_mod3_cases (delta : Int) :
    delta.natAbs % 3 = 0 ∨ delta.natAbs % 3 = 1 ∨ delta.natAbs % 3 = 2 := by
  omega

theorem frameScoreRepl_of_ne_zero (delta : Int) (h : delta.natAbs % 3 ≠ 0) :
    frameScoreRepl delta = frameScoreStr delta := by
  unfold frameScoreRepl
  apply replaceAll_of_not_containsSub
  rw [frameScoreStr_eq]
  rcases natAbs_mod3_cases delta with h0 | h1 | h2
  · exact absurd h0 h
  · rw [h1]
    exact containsSub_dot0_false _ _ _ (signDigits_no_dot delta)
      (by decide) (by decide) (by intro c hc; fin_cases hc; decide)
  · rw [h2]
    exact containsSub_dot0_false _ _ _ (signDigits_no_dot delta)
      (by decide) (by decide) (by intro c hc; fin_cases hc; decide)

theorem containsC_frameScoreRepl (delta : Int) :
    containsSub ['C'] (frameScoreRepl delta) =
      decide (delta.natAbs % 3 = 0) := by
  rcases natAbs_mod3_cases delta with h0 | h1 | h2
  · have hrepl : frameScoreRepl delta = signDigits delta ++ ['C'] := by
      unfold frameScoreRepl
      rw [frameScoreStr_eq, h0]
      show replaceAll '.' ['0'] ['C'] (signDigits delta ++ ['.', '0']) = _
      exact replaceAll_dot0_end _ (signDigits_no_dot delta)
    rw [hrepl, h0]
    have hm := containsSub_single_of_mem 'C' (signDigits delta ++ ['C']) (by simp)
    simp [hm]
  · have hrepl := frameScoreRepl_of_ne_zero delta (by omega)
    have hnm : 'C' ∉ signDigits delta ++ '.' :: fracDigits 1 := by
      intro hmem
      rcases List.mem_append.mp hmem with h | h
      · exact signDigits_no_C delta _ h rfl
      · rw [show fracDigits 1 = ['3', '3'] from rfl] at h
        revert h
        decide
    rw [hrepl, frameScoreStr_eq, h1, containsSub_single_of_not_mem _ _ hnm]
    simp
  · have hrepl := frameScoreRepl_of_ne_zero delta (by omega)
    have hnm : 'C' ∉ signDigits delta ++ '.' :: fracDigits 2 := by
      intro hmem
      rcases List.mem_append.mp hmem with h | h
      · exact signDigits_no_C delta _ h rfl
      · rw [show fracDigits 2 = ['6', '7'] from rfl] at h
        revert h
        decide
    rw [hrepl, frameScoreStr_eq, h2, containsSub_single_of_not_mem _ _ hnm]
    simp

theorem splitFirstOpt_frameScoreRepl (delta : Int) (h : delta.natAbs % 3 ≠ 0) :
    splitFirstOpt '.' (frameScoreRepl delta) =
      (signDigits delta, some (fracDigits (delta.natAbs % 3))) := by
  rw [frameScoreRepl_of_ne_zero delta h, frameScoreStr_eq]
  exact splitFirstOpt_append '.' _ _ (signDigits_no_dot delta)

theorem left_contains_dash (delta : Int) (h : delta.natAbs % 3 ≠ 0) :
    containsSub ['-']
      (pandasReplaceExact ['-', '0'] ['-', '1']
        (splitFirstOpt '.' (frameScoreRepl delta)).1) =
      decide (delta < 0) := by
  rw [splitFirstOpt_frameScoreRepl delta h]
  by_cases hneg : delta < 0
  · have hsd : signDigits delta = '-' :: natDigits (delta.natAbs / 3) := by
      simp [signDigits, hneg]
    simp only [hsd]
    unfold pandasReplaceExact
    split
    · simp [hneg]
      decide
    · rw [containsSub_single_of_mem '-' _ (List.mem_cons_self _ _)]
      simp [hneg]
  · have hsd : signDigits delta = natDigits (delta.natAbs / 3) := by
      simp [signDigits, hneg]
    simp only [hsd]
    have hne : natDigits (delta.natAbs / 3) ≠ ['-', '0'] := by
      intro he
      have : '-' ∈ natDigits (delta.natAbs / 3) := by rw [he]; simp
      exact (isDigit_ne '-' (mem_natDigits_isDigit _ _ this)).2.1 rfl
    unfold pandasReplaceExact
    rw [if_neg (by simpa using hne)]
    rw [containsSub_single_of_not_mem]
    · simp [hneg]
    · intro hmem
      exact (isDigit_ne '-' (mem_natDigits_isDigit _ _ hmem)).2.1 rfl

theorem right_frameScoreRepl (delta : Int) (h : delta.natAbs % 3 ≠ 0) :
    ((splitFirstOpt '.' (frameScoreRepl delta)).2).getD [] =
      fracDigits (delta.natAbs % 3) := by
  rw [splitFirstOpt_frameScoreRepl delta h]
  rfl

theorem k2rowOf_left (r : RawRow) :
    (k2rowOf r).left.data =
      pandasReplaceExact ['-', '0'] ['-', '1']
        (splitFirstOpt '.' (frameScoreRepl (deltaOf r))).1 := rfl

theorem k2rowOf_right (r : RawRow) :
    (k2rowOf r).right.data =
      ((splitFirstOpt '.' (frameScoreRepl (deltaOf r))).2).getD [] := rfl

theorem krowOf_frame (r : RawRow) :
    (krowOf r).Frame_Score.data = frameScoreRepl (deltaOf r) := rfl

theorem survivesTest_iff (r : RawRow) (hk : (deltaOf r).natAbs % 3 ≠ 0) :
    ((!containsSub ['-'] (k2rowOf r).left.data &&
        containsSub ['3', '3'] (k2rowOf r).right.data) ||
      (containsSub ['-'] (k2rowOf r).left.data &&
        containsSub ['6', '7'] (k2rowOf r).right.data)) = true ↔
      deltaOf r % 3 = 1 := by
  rw [k2rowOf_left, k2rowOf_right, left_contains_dash _ hk,
    right_frameScoreRepl _ hk]
  rcases natAbs_mod3_cases (deltaOf r) with h0 | h1 | h2
  · exact absurd h0 hk
  · rw [h1, show fracDigits 1 = ['3', '3'] from rfl]
    simp [show containsSub ['3', '3'] ['3', '3'] = true from rfl,
      show containsSub ['6', '7'] ['3', '3'] = false from rfl]
    omega
  · rw [h2, show fracDigits 2 = ['6', '7'] from rfl]
    simp [show containsSub ['3', '3'] ['6', '7'] = false from rfl,
      show containsSub ['6', '7'] ['6', '7'] = true from rfl]
    omega

theorem mem_classifier_iff (rows : List RawRow) (k : K2Row) :
    k ∈ extract_frameshifts (split_frame_score
        ((rows.map krowOf).filter
          (fun x => !containsSub ['C'] x.Frame_Score.data))) ↔
      ∃ r ∈ rows, k = k2rowOf r ∧ deltaOf r % 3 = 1 := by
  unfold extract_frameshifts split_frame_score
  rw [List.mem_append]
  constructor
  · intro hk
    have hcore : ∃ x, x ∈ (rows.map krowOf).filter
          (fun y => !containsSub ['C'] y.Frame_Score.data) ∧ toK2Row x = k ∧
        ((!containsSub ['-'] k.left.data && containsSub ['3', '3'] k.right.data) ||
          (containsSub ['-'] k.left.data && containsSub ['6', '7'] k.right.data)) =
          true := by
      rcases hk with hk | hk
      · rcases List.mem_filter.mp hk with ⟨hmem, htest⟩
        rcases List.mem_map.mp hmem with ⟨x, hx, hxk⟩
        exact ⟨x, hx, hxk, by rw [Bool.or_eq_true]; exact Or.inl htest⟩
      · rcases List.mem_filter.mp hk with ⟨hmem, htest⟩
        rcases List.mem_map.mp hmem with ⟨x, hx, hxk⟩
        exact ⟨x, hx, hxk, by rw [Bool.or_eq_true]; exact Or.inr htest⟩
    rcases hcore with ⟨x, hx, hxk, htest⟩
    rcases List.mem_filter.mp hx with ⟨hxm, hfK⟩
    rcases List.mem_map.mp hxm with ⟨r, hr, hrx⟩
    subst hrx
    subst hxk
    refine ⟨r, hr, rfl, ?_⟩
    have hknz : (deltaOf r).natAbs % 3 ≠ 0 := by
      rw [krowOf_frame, containsC_frameScoreRepl] at hfK
      simpa using hfK
    exact (survivesTest_iff r hknz).mp htest
  · rintro ⟨r, hr, rfl, hd⟩
    have hknz : (deltaOf r).natAbs % 3 ≠ 0 := by omega
    have hfK : (!containsSub ['C'] (krowOf r).Frame_Score.data) = true := by
      rw [krowOf_frame, containsC_frameScoreRepl]
      simpa using hknz
    have hmem : krowOf r ∈ (rows.map krowOf).filter
        (fun y => !containsSub ['C'] y.Frame_Score.data) :=
      List.mem_filter.mpr ⟨List.mem_map_of_mem krowOf hr, hfK⟩
    have hmem2 : k2rowOf r ∈ ((rows.map krowOf).filter
        (fun y => !containsSub ['C'] y.Frame_Score.data)).map toK2Row :=
      List.mem_map_of_mem toK2Row hmem
    have ht := (survivesTest_iff r hknz).mpr hd
    rw [Bool.or_eq_true] at ht
    rcases ht with h | h
    · exact Or.inl (List.mem_filter.mpr ⟨hmem2, h⟩)
    · exact Or.inr (List.mem_filter.mpr ⟨hmem2, h⟩)

deriving instance DecidableEq for Except

/-! ## Claim theorems -/

/-- C1: every record surviving the Frameshift Classifier (the composition of
`split_depth_and_calculate_frame_score`, `split_frame_score` and
`extract_frameshifts`) has allele-length delta `len(ALT) - len(REF)`
congruent to 1 modulo 3, and conversely every input row of that residue
class survives: surviving positive deltas are exactly 1, 4, 7, … and
surviving negative deltas are exactly -2, -5, -8, …; no in-frame record and
no record of the opposite residue class appears in the output. -/
theorem claim_frame_residue_invariant (rows : List RawRow) (ks : List KRow)
    (h : split_depth_and_calculate_frame_score rows = Except.ok ks) (k : K2Row) :
    k ∈ extract_frameshifts (split_frame_score ks) ↔
      ∃ r ∈ rows, k = k2rowOf r ∧
        ((r.ALT.length : Int) - (r.REF.length : Int)) % 3 = 1 := by
  have hks : ks = (rows.map krowOf).filter
      (fun x => !containsSub ['C'] x.Frame_Score.data) := by
    unfold split_depth_and_calculate_frame_score at h
    split at h
    · injection h with h2
      exact h2.symm
    · simp at h
  rw [hks]
  exact mem_classifier_iff rows k

/-- Concrete insertion row used by witnesses (the spec's worked scenario:
`ref="A"`, `alt="CA"` analogue with depths `150:1000`). -/
def rowW : RawRow :=
  { Motifs := "X-Y", Variant := "Insertion", POS := "30", REF := "A",
    ALT := "AC", Motif_sequence := none, Sample := "0:150:1000" }

/-- Witness for C1 at a concrete one-row batch. -/
theorem claim_frame_residue_invariant_witness :
    (k2rowOf rowW ∈ extract_frameshifts (split_frame_score [krowOf rowW])) ↔
      ∃ r ∈ [rowW], k2rowOf rowW = k2rowOf r ∧
        ((r.ALT.length : Int) - (r.REF.length : Int)) % 3 = 1 :=
  claim_frame_residue_invariant [rowW] [krowOf rowW] (by decide) (k2rowOf rowW)

/-- C2: for every row with non-negative integer depths, the assigned
confidence label equals the first matching rule of the spec's ordered
decision table (stated over exact arithmetic by `specConfidenceTable`). -/
theorem claim_confidence_matches_table (a v : ℕ) :
    assign_confidence (divScore (a : Int) (v : Int)) (a : Int) (v : Int) =
      specConfidenceTable (a : Int) (v : Int) := by
  rcases Nat.eq_zero_or_pos v with hv | hv
  · subst hv
    unfold assign_confidence specConfidenceTable
    rw [if_pos (Or.inr (by norm_num)), if_pos (Or.inr (by norm_num))]
  · have hvz : ((v : Int)) ≠ 0 := by omega
    have hds : divScore (a : Int) (v : Int) =
        .fin (((a : Int) : ℚ) / ((v : Int) : ℚ)) := by
      unfold divScore
      rw [if_neg hvz]
    rw [hds]
    unfold assign_confidence specConfidenceTable
    simp only [dsLe, dsGe, decide_eq_true_eq]

/-- C4: a zero `active_region_depth` never raises (the embedded scoring
functions are total, mirroring numpy division semantics) and always yields
`Low_Precision`, via the `active_region_depth <= 200` disjunct of rule 1. -/
theorem claim_zero_region_low_precision (a : Int) :
    assign_confidence (divScore a 0) a 0 = "Low_Precision" := by
  unfold assign_confidence
  rw [if_pos (Or.inr (by norm_num))]

/-- C10: the scorer returns `High_Precision*` only when `alt_depth` is
exactly 100, the active-region depth exceeds 200 and the depth score is
strictly above 0.00515: the `alt_depth > 100` and `alt_depth <= 20` rules
precede the starred rule. -/
theorem claim_star_only_at_alt_depth_100 (a v : Int)
    (h : assign_confidence (divScore a v) a v = "High_Precision*") :
    a = 100 ∧ 200 < v ∧ (0.00515 : ℚ) < (a : ℚ) / (v : ℚ) := by
  by_cases hv : v = 0
  · subst hv
    unfold assign_confidence at h
    rw [if_pos (Or.inr (by norm_num))] at h
    exact absurd h (by decide)
  · have hds : divScore a v = .fin ((a : ℚ) / (v : ℚ)) := by
      unfold divScore
      rw [if_neg hv]
    rw [hds] at h
    unfold assign_confidence at h
    simp only [dsLe, dsGe, decide_eq_true_eq] at h
    split_ifs at h with h1 h2 h3 h4 h5 h6
    · exact absurd h (by decide)
    · exact absurd h (by decide)
    · exact absurd h (by decide)
    · exact absurd h (by decide)
    · exact absurd h (by decide)
    · push_neg at h1 h2 h3
      have ha : a = 100 := by omega
      subst ha
      refine ⟨rfl, h1.2, ?_⟩
      have h2s := h2 ⟨by omega, by omega⟩ (le_of_lt h1.1)
      exact h2s
    · exact absurd h (by decide)

/-- Witness for C10 at `alt_depth = 100`, `active_region_depth = 15000`. -/
theorem claim_star_only_at_alt_depth_100_witness :
    (100 : Int) = 100 ∧ (200 : Int) < 15000 ∧
      (0.00515 : ℚ) < ((100 : Int) : ℚ) / ((15000 : Int) : ℚ) :=
  claim_star_only_at_alt_depth_100 100 15000
    (by norm_num [assign_confidence, divScore, dsLe, dsGe])

/-- Error propagation of `astype(int)`: one bad element aborts the column
conversion. -/
theorem mapME_isErr_of_mem (f : α → Except String β) (l : List α)
    (h : ∃ x ∈ l, isErr (f x) = true) : isErr (mapME f l) = true := by
  induction l with
  | nil => simp at h
  | cons a t ih =>
    rcases h with ⟨x, hx, hxe⟩
    rcases List.mem_cons.mp hx with rfl | hx
    · unfold mapME
      cases hfa : f x with
      | error e => simp [isErr]
      | ok b =>
        rw [hfa] at hxe
        simp [isErr] at hxe
    · unfold mapME
      cases hfa : f a with
      | error e => simp [isErr]
      | ok b =>
        have hmem := ih ⟨x, hx, hxe⟩
        cases hmt : mapME f t with
        | error e => simp [isErr]
        | ok bs =>
          rw [hmt] at hmem
          simp [isErr] at hmem

/-- Reduction of `process_kmer_results` once stage 1 has succeeded. -/
theorem process_kmer_results_ok (rows : List RawRow) (ks : List KRow)
    (h : split_depth_and_calculate_frame_score rows = Except.ok ks) :
    process_kmer_results rows =
      match calculate_depth_score_and_assign_confidence
          (extract_frameshifts (split_frame_score ks)) with
      | .error e => .error e
      | .ok cs => .ok (filter_by_alt_values_and_finalize cs) := by
  unfold process_kmer_results
  rw [h]

/-- C9: every row of the final table returned by `process_kmer_results` has a
confidence label different from `Low_Precision` and an `ALT` outside
`{CG, TG}`; and whenever some `ALT` equals the sentinel `GG`, the
finalization keeps only `GG` rows whose depth score is at least 0.00469. -/
theorem claim_finalize_invariant :
    (∀ cs : List CRow, (∃ c ∈ cs, c.ALT = "GG") →
      ∀ x ∈ filter_by_alt_values_and_finalize cs, x.ALT = "GG" →
        dsGe x.Depth_Score (0.00469 : ℚ) = true) ∧
    (∀ rows out, process_kmer_results rows = Except.ok out →
      ∀ x ∈ out, x.Confidence ≠ "Low_Precision" ∧ x.ALT ≠ "CG" ∧ x.ALT ≠ "TG") := by
  constructor
  · rintro cs ⟨c, hc, hcgg⟩ x hx hxgg
    have hguard : cs.any (fun r => containsWordW ['G', 'G'] r.ALT.data) = true := by
      rw [List.any_eq_true]
      refine ⟨c, hc, ?_⟩
      rw [hcgg]
      decide
    unfold filter_by_alt_values_and_finalize at hx
    rw [hguard] at hx
    simp only [if_true] at hx
    rcases List.mem_filter.mp hx with ⟨hx2, _⟩
    rcases List.mem_filter.mp hx2 with ⟨hx1, _⟩
    rcases List.mem_append.mp hx1 with h | h
    · have hp := (List.mem_filter.mp h).2
      rw [hxgg] at hp
      simp at hp
    · have hp := (List.mem_filter.mp h).2
      rw [Bool.and_eq_true] at hp
      exact hp.2
  · intro rows out h x hx
    cases hsp : split_depth_and_calculate_frame_score rows with
    | error e =>
      unfold process_kmer_results at h
      rw [hsp] at h
      exact Except.noConfusion h
    | ok ks =>
      rw [process_kmer_results_ok rows ks hsp] at h
      cases hcal : calculate_depth_score_and_assign_confidence
          (extract_frameshifts (split_frame_score ks)) with
      | error e =>
        rw [hcal] at h
        exact Except.noConfusion h
      | ok cs =>
        rw [hcal] at h
        injection h with h2
        subst h2
        unfold filter_by_alt_values_and_finalize at hx
        rcases List.mem_filter.mp hx with ⟨hx2, hconf⟩
        rcases List.mem_filter.mp hx2 with ⟨_, hcgtg⟩
        rw [Bool.and_eq_true] at hcgtg
        refine ⟨?_, ?_, ?_⟩
        · simpa using hconf
        · simpa using hcgtg.1
        · simpa using hcgtg.2

/-- The confidence-scored row produced for `rowW` (fields written as the
unevaluated source applications, so that the pipeline equation is
definitional). -/
def crowW : CRow :=
  { Motifs := "X-Y", Variant := "Insertion", POS := "30", REF := "A",
    ALT := "AC", Motif_sequence := none,
    Estimated_Depth_AlternateVariant := 150,
    Estimated_Depth_Variant_ActiveRegion := 1000,
    Depth_Score := divScore 150 1000,
    Confidence := assign_confidence (divScore 150 1000) 150 1000 }

/-- Witness for C9 on the one-row batch `[rowW]`. -/
theorem claim_finalize_invariant_witness :
    crowW.Confidence ≠ "Low_Precision" ∧ crowW.ALT ≠ "CG" ∧ crowW.ALT ≠ "TG" := by
  have hconf : assign_confidence (divScore 150 1000) 150 1000 = "High_Precision" := by
    norm_num [assign_confidence, divScore, dsLe, dsGe]
  have hconf2 : crowW.Confidence = "High_Precision" := hconf
  have h1 : split_depth_and_calculate_frame_score [rowW] =
      Except.ok [krowOf rowW] := by decide
  have h3 : toCRow (k2rowOf rowW) = Except.ok crowW := rfl
  have h4 : calculate_depth_score_and_assign_confidence
      (extract_frameshifts (split_frame_score [krowOf rowW])) =
      Except.ok [crowW] := by
    rw [show extract_frameshifts (split_frame_score [krowOf rowW]) =
        [k2rowOf rowW] from by decide]
    unfold calculate_depth_score_and_assign_confidence
    simp [mapME, h3]
  have e1 : (crowW.ALT == "CG") = false := by decide
  have e2 : (crowW.ALT == "TG") = false := by decide
  have e3 : (crowW.Confidence == "Low_Precision") = false := by
    rw [hconf2]
    decide
  have hgg : ([crowW].any fun r => containsWordW ['G', 'G'] r.ALT.data) = false := by
    decide
  have h5 : filter_by_alt_values_and_finalize [crowW] = [crowW] := by
    unfold filter_by_alt_values_and_finalize
    rw [hgg]
    simp [List.filter_cons, e1, e2, e3]
  have hproc : process_kmer_results [rowW] = Except.ok [crowW] := by
    rw [process_kmer_results_ok [rowW] [krowOf rowW] h1, h4]
    exact congrArg Except.ok h5
  exact claim_finalize_invariant.2 [rowW] [crowW] hproc crowW
    (List.mem_singleton.mpr rfl)

/-- A raw row whose depth field has only two colon-separated parts. -/
def rowBad : RawRow :=
  { Motifs := "X-Y", Variant := "Insertion", POS := "10", REF := "A",
    ALT := "AG", Motif_sequence := none, Sample := "5:7" }

/-- A raw row whose alternate-depth subfield is not an integer literal. -/
def rowBad2 : RawRow :=
  { Motifs := "X-Y", Variant := "Insertion", POS := "10", REF := "A",
    ALT := "AG", Motif_sequence := none, Sample := "1:x:300" }

/-- Counterexample to C7 as stated: a batch containing one well-formed row
and one row whose depth triple cannot be parsed is aborted whole — the
pipeline returns an error and the well-formed row is not processed to any
output. -/
theorem claim_depth_parse_recoverable_counterexample :
    isErr (process_kmer_results [rowW, rowBad]) = true := by decide

/-- C7 (amended): when any row that survives the frameshift extraction has a
depth subfield that `astype(int)` cannot parse, `process_kmer_results`
raises (returns an error), producing no output at all; there is no row-level
exclusion or logged-warning recovery. -/
theorem claim_depth_parse_aborts_batch (rows : List RawRow) (ks : List KRow)
    (h : split_depth_and_calculate_frame_score rows = Except.ok ks)
    (hbad : ∃ k ∈ extract_frameshifts (split_frame_score ks),
      isErr (toCRow k) = true) :
    isErr (process_kmer_results rows) = true := by
  rw [process_kmer_results_ok rows ks h]
  have herr : isErr (calculate_depth_score_and_assign_confidence
      (extract_frameshifts (split_frame_score ks))) = true :=
    mapME_isErr_of_mem toCRow _ hbad
  cases hcal : calculate_depth_score_and_assign_confidence
      (extract_frameshifts (split_frame_score ks)) with
  | error e => simp [isErr]
  | ok cs =>
    rw [hcal] at herr
    simp [isErr] at herr

/-- Witness for the amended C7 at a concrete two-row batch. -/
theorem claim_depth_parse_aborts_batch_witness :
    isErr (process_kmer_results [rowW, rowBad2]) = true :=
  claim_depth_parse_aborts_batch [rowW, rowBad2]
    [krowOf rowW, krowOf rowBad2] (by decide)
    ⟨k2rowOf rowBad2, by decide, by decide⟩

/-- `dedupByAux` returns a sublist of its input. -/
theorem dedupByAux_sublist [BEq β] (key : α → β) (seen : List β)
    (l : List α) : List.Sublist (dedupByAux key seen l) l := by
  induction l generalizing seen with
  | nil => simp [dedupByAux]
  | cons a t ih =>
    unfold dedupByAux
    split
    · exact List.Sublist.cons a (ih seen)
    · exact List.Sublist.cons₂ a (ih _)

/-- `dedupBy` returns a sublist of its input. -/
theorem dedupBy_sublist [BEq β] (key : α → β) (l : List α) :
    List.Sublist (dedupBy key l) l :=
  dedupByAux_sublist key [] l

/-- A key surviving `dedupByAux` was not among the already-seen keys. -/
theorem dedupByAux_key_not_seen [BEq β] (key : α → β) (seen : List β)
    (l : List α) (x : α) (h : x ∈ dedupByAux key seen l) :
    seen.contains (key x) = false := by
  induction l generalizing seen with
  | nil => simp [dedupByAux] at h
  | cons a t ih =>
    unfold dedupByAux at h
    by_cases hs : seen.contains (key a) = true
    · rw [if_pos hs] at h
      exact ih seen h
    · rw [if_neg hs] at h
      rcases List.mem_cons.mp h with rfl | h
      · simpa using hs
      · have := ih (key a :: seen) h
        simp only [List.contains_cons, Bool.or_eq_false_iff] at this
        exact this.2

/-- `drop_duplicates` leaves pairwise distinct keys. -/
theorem dedupByAux_pairwise [BEq β] [LawfulBEq β] (key : α → β)
    (seen : List β) (l : List α) :
    (dedupByAux key seen l).Pairwise (fun a b => ¬ key a = key b) := by
  induction l generalizing seen with
  | nil => simp [dedupByAux]
  | cons a t ih =>
    unfold dedupByAux
    by_cases hs : seen.contains (key a) = true
    · rw [if_pos hs]
      exact ih seen
    · rw [if_neg hs]
      refine List.Pairwise.cons ?_ (ih _)
      intro b hb hkey
      have hns := dedupByAux_key_not_seen key _ t b hb
      simp only [List.contains_cons, Bool.or_eq_false_iff] at hns
      have : (key b == key a) = false := hns.1
      rw [beq_eq_false_iff_ne] at this
      exact this hkey.symm

/-- Pairwise distinct keys after `dedupBy`. -/
theorem dedupBy_pairwise [BEq β] [LawfulBEq β] (key : α → β) (l : List α) :
    (dedupBy key l).Pairwise (fun a b => ¬ key a = key b) :=
  dedupByAux_pairwise key [] l

/-- C5: after the Motif Resolver's dedup steps, no two rows of the left-half
result share an `ALT` value, no two rows of the right-half result share an
`ALT` value, and no two rows of the right-half result share a `(REF, ALT)`
pair — for every input batch and configuration. -/
theorem claim_resolver_dedup_uniqueness (cfg : MotifConfig)
    (merged : List (String × String)) (l r : List MRow2) :
    (processMotifLeft merged l).Pairwise (fun a b => a.ALT ≠ b.ALT) ∧
    (processMotifRight cfg merged r).Pairwise (fun a b => a.ALT ≠ b.ALT) ∧
    (processMotifRight cfg merged r).Pairwise
      (fun a b => ¬(a.REF = b.REF ∧ a.ALT = b.ALT)) := by
  refine ⟨?_, ?_, ?_⟩
  · unfold processMotifLeft
    split
    · exact List.Pairwise.nil
    · exact dedupBy_pairwise (fun x : ARow => x.ALT) _
  · simp only [processMotifRight]
    split
    · exact List.Pairwise.nil
    · apply List.Pairwise.sublist (dedupBy_sublist (fun x : ARow => (x.REF, x.ALT)) _)
      split
      · split
        · exact List.Pairwise.sublist (List.filter_sublist _)
            (dedupBy_pairwise (fun x : ARow => x.ALT) _)
        · exact dedupBy_pairwise (fun x : ARow => x.ALT) _
      · exact dedupBy_pairwise (fun x : ARow => x.ALT) _
  · simp only [processMotifRight]
    split
    · exact List.Pairwise.nil
    · refine List.Pairwise.imp ?_
        (dedupBy_pairwise (fun x => (x.REF, x.ALT)) _)
      intro a b hk hab
      apply hk
      rw [Prod.mk.injEq]
      exact ⟨hab.1, hab.2⟩

/-- Default `motif_filtering` configuration block of the shipped config. -/
def cfgDefault : MotifConfig :=
  { position_threshold := 60, exclude_motifs_right := [],
    alt_for_motif_right_gg := "GG", motifs_for_alt_gg := [],
    exclude_alts_combined := [], exclude_motifs_combined := [] }

/-- A resolver row with the compound id `A-B` (one dash). -/
def mrowDash : MRow :=
  { Motifs := "A-B", Variant := "Insertion", POS := 10, REF := "A",
    ALT := "AC", Motif_sequence := none,
    Estimated_Depth_AlternateVariant := 150,
    Estimated_Depth_Variant_ActiveRegion := 1000,
    Depth_Score := 2, Confidence := "High_Precision" }

/-- A resolver row whose id `AB` has no dash at all. -/
def mrowNoDash : MRow :=
  { Motifs := "AB", Variant := "Insertion", POS := 10, REF := "T",
    ALT := "TC", Motif_sequence := none,
    Estimated_Depth_AlternateVariant := 150,
    Estimated_Depth_Variant_ActiveRegion := 1000,
    Depth_Score := 1, Confidence := "High_Precision" }

/-- A resolver row with two dashes in its id. -/
def mrowDoubleDash : MRow :=
  { Motifs := "A-B-C", Variant := "Insertion", POS := 10, REF := "A",
    ALT := "AC", Motif_sequence := none,
    Estimated_Depth_AlternateVariant := 150,
    Estimated_Depth_Variant_ActiveRegion := 1000,
    Depth_Score := 1, Confidence := "High_Precision" }

/-- Counterexample to C3 as stated: a batch holding a well-formed id and an
id with zero dashes passes the `max() == 1` check, is not aborted, and
produces (partial) output — the zero-dash row flows through with a null
right motif. -/
theorem claim_malformed_abort_counterexample :
    motif_correction_annotate cfgDefault [] [mrowDash, mrowNoDash] ≠ [] := by
  decide

/-- C3 (amended): the resolver rejects a batch — by logging an error and
returning an empty frame, not by raising any exception — exactly when the
maximum dash count over the batch's motif ids differs from 1; in particular
an id with zero dashes aborts nothing when another id has exactly one dash. -/
theorem claim_malformed_dash_returns_empty (cfg : MotifConfig)
    (merged : List (String × String)) (rows : List MRow)
    (hne : rows ≠ []) (hd : dashMax rows ≠ 1) :
    motif_correction_annotate cfg merged rows = [] := by
  unfold motif_correction_annotate
  rw [if_neg hne, if_neg hd]

/-- Witness for the amended C3 at a concrete two-dash batch. -/
theorem claim_malformed_dash_returns_empty_witness :
    motif_correction_annotate cfgDefault [] [mrowDoubleDash] = [] :=
  claim_malformed_dash_returns_empty cfgDefault [] [mrowDoubleDash]
    (by decide) (by decide)

/-- An annotated row with position 120 (at least twice the threshold). -/
def arow120 : ARow :=
  { Motif := some "A", Motif_fasta := "A-B", Variant := "Insertion",
    POS := 120, REF := "A", ALT := "AC", Motif_sequence := none,
    Estimated_Depth_AlternateVariant := 150,
    Estimated_Depth_Variant_ActiveRegion := 1000,
    Depth_Score := 1, Confidence := "High_Precision" }

/-- An annotated row with position 70 (between one and two thresholds). -/
def arow70 : ARow :=
  { Motif := some "A", Motif_fasta := "A-B", Variant := "Insertion",
    POS := 70, REF := "A", ALT := "AC", Motif_sequence := none,
    Estimated_Depth_AlternateVariant := 150,
    Estimated_Depth_Variant_ActiveRegion := 1000,
    Depth_Score := 1, Confidence := "High_Precision" }

/-- Counterexample to C6 as stated: with the default threshold 60, a row at
position 120 is re-based to 60, which is still at or above the threshold, so
a second application of the re-basing step subtracts again (and overwrites
`position_fasta`) — re-basing already-rebased data is not a no-op. -/
theorem claim_rebase_idempotent_counterexample :
    List.map (rebaseAgain 60) (List.map (rebaseRow 60) [arow120]) ≠
      List.map (rebaseRow 60) [arow120] := by
  decide

/-- C6 (amended): re-applying the re-basing step leaves the position column
unchanged exactly on tables whose original positions are all below twice the
threshold (their re-based positions are below the threshold, so the mask
does not re-trigger); rows at or above twice the threshold are shifted
again, and the step always overwrites `position_fasta` with the current
position. -/
theorem claim_rebase_pos_stable (thr : Int) (t : List ARow)
    (h : ∀ x ∈ t, x.POS < 2 * thr) :
    (List.map (rebaseAgain thr) (List.map (rebaseRow thr) t)).map
        (fun f => f.POS) =
      (List.map (rebaseRow thr) t).map (fun f => f.POS) := by
  induction t with
  | nil => rfl
  | cons a t ih =>
    have ha := h a (List.mem_cons_self a t)
    have ht : ∀ x ∈ t, x.POS < 2 * thr :=
      fun x hx => h x (List.mem_cons_of_mem a hx)
    simp only [List.map_cons]
    rw [ih ht]
    congr 1
    simp only [rebaseRow, rebaseAgain]
    split_ifs <;> omega

/-- Witness for the amended C6 at a one-row table with position 70. -/
theorem claim_rebase_pos_stable_witness :
    (List.map (rebaseAgain 60) (List.map (rebaseRow 60) [arow70])).map
        (fun f => f.POS) =
      (List.map (rebaseRow 60) [arow70]).map (fun f => f.POS) :=
  claim_rebase_pos_stable 60 [arow70] (by decide)

/-- A caller DataFrame with the standard filtered-VCF column layout. -/
def dfW : PyDF :=
  { header := ["#CHROM", "POS", "ID", "REF", "ALT", "QUAL", "FILTER", "INFO",
      "FORMAT", "SAMPLE"],
    rows := [["X-Y", "30", "id1", "A", "AC", ".", ".", ".", "GT",
      "0:150:1000"]] }

/-- Counterexample to C8 as stated: after `preprocessing_insertion` returns,
the caller-visible frame (second component: the object mutated by the
`inplace=True` rename/drop/rename prefix) no longer equals the original —
the `ID` column the caller passed in is gone. -/
theorem claim_normalizer_pure_counterexample :
    (preprocessing_insertion dfW [("X-Y", "SEQ")]).2 ≠ dfW ∧
      "ID" ∈ dfW.header ∧
      "ID" ∉ (preprocessing_insertion dfW [("X-Y", "SEQ")]).2.header := by
  decide

/-- C8 (amended): `preprocessing_insertion` (and the identical
`preprocessing_deletion`) mutates its caller's DataFrame in place: on any
successful run the caller's frame has lost the dropped metadata columns
(witnessed by `ID`) and therefore differs from the frame that was passed in;
only the merge result is built in a fresh object. -/
theorem claim_normalizer_mutates_caller (df : PyDF)
    (ref : List (String × String)) (res view : PyDF)
    (h : preprocessing_insertion df ref = (some res, view)) :
    "ID" ∈ df.header ∧ "ID" ∉ view.header ∧ view ≠ df := by
  simp only [preprocessing_insertion] at h
  split at h
  · simp at h
  · rename_i d2 hdrop
    split at h
    · simp at h
    · rename_i d3 hlast
      split at h
      · simp at h
      · rename_i d4 hmerge
        have hview : view = d3 := by
          have hsnd := congrArg Prod.snd h
          simpa using hsnd.symm
        have hid1 : "ID" ∈ (renameCol "#CHROM" "Motifs" df).header := by
          unfold dropCols at hdrop
          split at hdrop
          · next hall =>
              have hforall := List.all_eq_true.mp hall "ID" (by decide)
              simpa using hforall
          · simp at hdrop
        have hiddf : "ID" ∈ df.header := by
          unfold renameCol at hid1
          rcases List.mem_map.mp hid1 with ⟨x, hx, hfx⟩
          by_cases hxc : (x == "#CHROM") = true
          · rw [if_pos hxc] at hfx
            exact absurd hfx (by decide)
          · rw [if_neg hxc] at hfx
            exact hfx ▸ hx
        have hid2 : "ID" ∉ d2.header := by
          unfold dropCols at hdrop
          split at hdrop
          · injection hdrop with hd2
            rw [← hd2]
            intro hmem
            have hpred := (List.mem_filter.mp hmem).2
            simp at hpred
          · simp at hdrop
        have hid3 : "ID" ∉ d3.header := by
          unfold renameLastToSample at hlast
          cases hgl : d2.header.getLast? with
          | none =>
            rw [hgl] at hlast
            simp at hlast
          | some last =>
            rw [hgl] at hlast
            injection hlast with hd3
            rw [← hd3]
            unfold renameCol
            intro hmem
            rcases List.mem_map.mp hmem with ⟨x, hx, hfx⟩
            by_cases hxc : (x == last) = true
            · rw [if_pos hxc] at hfx
              exact absurd hfx (by decide)
            · rw [if_neg hxc] at hfx
              exact hid2 (hfx ▸ hx)
        refine ⟨hiddf, hview ▸ hid3, ?_⟩
        intro he
        apply hview ▸ hid3
        rw [he]
        exact hiddf

/-- Witness for the amended C8 at the concrete frame `dfW`. -/
theorem claim_normalizer_mutates_caller_witness :
    "ID" ∈ dfW.header ∧
      "ID" ∉ (PyDF.mk ["Motifs", "POS", "REF", "ALT", "Sample"]
        [["X-Y", "30", "A", "AC", "0:150:1000"]]).header ∧
      (PyDF.mk ["Motifs", "POS", "REF", "ALT", "Sample"]
        [["X-Y", "30", "A", "AC", "0:150:1000"]]) ≠ dfW :=
  claim_normalizer_mutates_caller dfW [("X-Y", "SEQ")]
    (PyDF.mk ["Motifs", "POS", "REF", "ALT", "Sample", "Motif_sequence",
        "Variant"]
      [["X-Y", "30", "A", "AC", "0:150:1000", "SEQ", "Insertion"]])
    (PyDF.mk ["Motifs", "POS", "REF", "ALT", "Sample"]
      [["X-Y", "30", "A", "AC", "0:150:1000"]])
    (by decide)

end VNTyper
